import Mathlib

/-!
Shallow embedding of the core of the resk-caching repository
(circuit breaker, key-value caches, encryption envelope, variant
selector, in-memory vector cache) together with theorems settling the
frozen claims about it.

Conventions: JS timestamps (`Date.now()`) are modelled as `Int`
milliseconds; JS numbers in the selector are modelled over a generic
linear ordered field (instantiated at `ℚ` for concrete evaluation and at
`ℝ` for the vector cache); 32-bit unsigned arithmetic is modelled as
`Nat` with explicit `% 2^32`; JS strings that are hashed are modelled as
their lists of UTF-16 code units (`List Nat`); the string hash's JS
arithmetic, including the double-precision rounding of its 32-bit
multiplications, is modelled exactly over `Nat`/`Int`.
-/

/-! ## Circuit breaker (src/resilience/circuit-breaker.ts) -/

namespace CircuitBreaker

/-- `CircuitState` from the source ('closed' | 'open' | 'half-open').
`open` is a Lean keyword, so the constructor is named `opened`. -/
inductive CircuitState where
  | closed
  | opened
  | halfOpen
deriving DecidableEq, Repr

/-- `CircuitBreakerConfig`.  The request `timeout` field is kept for
fidelity but a timed-out operation is simply an operation that fails. -/
structure CBConfig where
  failureThreshold : Nat
  resetTimeoutMs : Int
  monitoringWindowMs : Int
  successThreshold : Nat
  timeout : Int
deriving DecidableEq, Repr

/-- The mutable fields of class `CircuitBreaker`. -/
structure CBState where
  state : CircuitState
  failures : Nat
  successes : Nat
  requests : Nat
  lastFailureTime : Option Int
  lastSuccessTime : Option Int
  nextAttemptTime : Option Int
  recentFailures : List Int
deriving DecidableEq, Repr

/-- Field initializers of class `CircuitBreaker`: a fresh breaker. -/
def CBState.initial : CBState :=
  { state := .closed, failures := 0, successes := 0, requests := 0,
    lastFailureTime := none, lastSuccessTime := none,
    nextAttemptTime := none, recentFailures := [] }

/-- `canAttemptReset`: `nextAttemptTime ? new Date() >= nextAttemptTime : false`. -/
def canAttemptReset (st : CBState) (now : Int) : Bool :=
  match st.nextAttemptTime with
  | some t => t ≤ now
  | none => false

/-- `onSuccess`: bump counters; a half-open breaker that reached
`successThreshold` successes closes and clears the failure history. -/
def onSuccess (cfg : CBConfig) (st : CBState) (now : Int) : CBState :=
  let st1 := { st with lastSuccessTime := some now, successes := st.successes + 1 }
  if st1.state = .halfOpen then
    if cfg.successThreshold ≤ st1.successes then
      { st1 with state := .closed, failures := 0, recentFailures := [] }
    else st1
  else if st1.state = .opened then
    { st1 with state := .closed, failures := 0, recentFailures := [] }
  else st1

/-- `onFailure`: record the failure, drop failures outside the
monitoring window (`date > now - monitoringWindowMs`), then open the
circuit when closed-and-over-threshold or when half-open. -/
def onFailure (cfg : CBConfig) (st : CBState) (now : Int) : CBState :=
  let st1 := { st with
    lastFailureTime := some now,
    failures := st.failures + 1,
    recentFailures :=
      (st.recentFailures ++ [now]).filter (fun d => now - cfg.monitoringWindowMs < d) }
  if st1.state = .closed ∧ cfg.failureThreshold ≤ st1.recentFailures.length then
    { st1 with state := .opened, nextAttemptTime := some (now + cfg.resetTimeoutMs) }
  else if st1.state = .halfOpen then
    { st1 with state := .opened, nextAttemptTime := some (now + cfg.resetTimeoutMs) }
  else st1

/-- Observable outcome of one `execute` call: the call was rejected by
the open circuit without running the operation, or the operation ran and
succeeded / failed (a timeout counts as a failure). -/
inductive ExecOutcome where
  | rejected
  | succeeded
  | failed
deriving DecidableEq, Repr

/-- The open-circuit check at the top of `execute` (after `requests++`):
an open breaker either moves to half-open (resetting the success
counter) and lets the call proceed, or rejects the call. -/
def gate (st : CBState) (now : Int) : Bool × CBState :=
  if st.state = .opened then
    if canAttemptReset st now then
      (true, { st with state := .halfOpen, successes := 0 })
    else (false, st)
  else (true, st)

/-- `execute`, with the wrapped operation abstracted to its outcome
`opOk` (true = resolves, false = rejects or times out). -/
def execute (cfg : CBConfig) (st : CBState) (now : Int) (opOk : Bool) :
    ExecOutcome × CBState :=
  let st0 := { st with requests := st.requests + 1 }
  match gate st0 now with
  | (false, st1) => (.rejected, st1)
  | (true, st1) =>
      if opOk then (.succeeded, onSuccess cfg st1 now)
      else (.failed, onFailure cfg st1 now)

end CircuitBreaker

/-! ## Key-value cache backends (src/cache/in-memory.ts, src/cache/sqlite.ts) -/

namespace KV

/-- `CacheEntry` / sqlite `Row`: a value with an optional absolute
expiry timestamp in epoch milliseconds. -/
structure CacheEntry (V : Type) where
  value : V
  expiresAt : Option Int
deriving DecidableEq, Repr

/-- Both backends are keyed maps; modelled as association lists where
`set` prepends and `lookup` finds the most recent binding. -/
def Store (V : Type) := List (String × CacheEntry V)

/-- `InMemoryCache.set` / `SqliteCache.set` (identical expiry logic):
`expiresAt = typeof ttlSeconds === "number" ? Date.now() + ttlSeconds * 1000 : null`.
The sqlite backend stores `JSON.stringify(value)` and parses it back on
`get`; that serialization round-trip is modelled as the identity on `V`. -/
def set (st : Store V) (now : Int) (k : String) (v : V) (ttlSeconds : Option Int) :
    Store V :=
  (k, { value := v, expiresAt := ttlSeconds.map (fun t => now + t * 1000) }) :: st

/-- Remove every binding of a key (sqlite `DELETE FROM kv WHERE key = ?`;
in-memory `store.delete`). -/
def erase (st : Store V) (k : String) : Store V :=
  st.filter (fun p => p.1 ≠ k)

/-- `InMemoryCache.get`: expired (and lazily deleted) when
`expiresAt !== null && expiresAt <= Date.now()`. -/
def memGet (st : Store V) (now : Int) (k : String) : Option V × Store V :=
  match st.lookup k with
  | none => (none, st)
  | some e =>
    match e.expiresAt with
    | some x => if x ≤ now then (none, erase st k) else (some e.value, st)
    | none => (some e.value, st)

/-- `SqliteCache.get`: expired (and lazily deleted) when
`expiresAt !== null && expiresAt < Date.now()` — note the strict `<`. -/
def sqliteGet (st : Store V) (now : Int) (k : String) : Option V × Store V :=
  match st.lookup k with
  | none => (none, st)
  | some e =>
    match e.expiresAt with
    | some x => if x < now then (none, erase st k) else (some e.value, st)
    | none => (some e.value, st)

end KV

/-! ## Encryption envelope (src/security/encryption.ts, src/cache/secure-wrapper.ts)

The AES-GCM primitive and the JSON (de)serialization of plaintext values
are external to the repository (WebCrypto / `JSON`); they are abstracted
as a `SerCipher` record, and the theorems assume only their inverse
properties. -/

namespace Encryption

/-- External primitives used by encryption.ts: plaintext JSON
serialization to bytes (`TextEncoder().encode(JSON.stringify v)`), its
inverse, a JSON renderer for the clear envelope, and the AES-GCM
encrypt/decrypt calls (decrypt returns `none` on authentication
failure, which the source surfaces as a thrown error). -/
structure SerCipher (V K : Type) where
  serialize : V → List Nat
  deserialize : List Nat → Option V
  stringifyV : V → List Char
  enc : K → List Nat → List Nat → List Nat
  dec : K → List Nat → List Nat → Option (List Nat)

/-- The two wire shapes `encryptForCache` can produce, as classified by
`decryptFromCache`'s probe (`JSON.parse` then check for `_v` and `clear`
fields): a clear-text JSON envelope carrying the value, or an opaque
byte string (stored base64-encoded). A base64 rendering never parses as
a JSON object, so the classification of produced payloads is exact. -/
inductive Envelope (V : Type) where
  | clear (v : V)
  | blob (bs : List Nat)
deriving DecidableEq, Repr

/-- Typed failures of the read path: AES-GCM rejection and JSON parse
failure of the decrypted plaintext, both thrown by the source. -/
inductive CryptoError where
  | decryptFailed
  | parseFailed
deriving DecidableEq, Repr

/-- `encryptForCache`: no key → clear envelope `{_v:1, clear: plain}`;
key → base64 of `iv ++ AES-GCM(key, iv, serialize plain)` with a fresh
12-byte `iv`. -/
def encryptForCache (sc : SerCipher V K) (key : Option K) (iv : List Nat) (v : V) :
    Envelope V :=
  match key with
  | none => .clear v
  | some k => .blob (iv ++ sc.enc k iv (sc.serialize v))

/-- `decryptFromCache`: a clear envelope short-circuits to its value
(before any key check); otherwise, with no key configured the source
does `return null`; with a key it splits off the first 12 bytes as iv,
decrypts (throwing on failure) and JSON-parses the plaintext (throwing
on failure). `Except.ok none` is the JS `null` return. -/
def decryptFromCache (sc : SerCipher V K) (key : Option K) (c : Envelope V) :
    Except CryptoError (Option V) :=
  match c with
  | .clear v => .ok (some v)
  | .blob bs =>
    match key with
    | none => .ok none
    | some k =>
      let iv := bs.take 12
      let data := bs.drop 12
      match sc.dec k iv data with
      | none => .error .decryptFailed
      | some plain =>
        match sc.deserialize plain with
        | none => .error .parseFailed
        | some v => .ok (some v)

/-- `SecureCacheWrapper.get`: a missing raw value is a miss; a present
payload goes through `decryptFromCache`. -/
def secureGet (sc : SerCipher V K) (key : Option K) (raw : Option (Envelope V)) :
    Except CryptoError (Option V) :=
  match raw with
  | none => .ok none
  | some c => decryptFromCache sc key c

/-- The standard base64 alphabet (`Buffer.toString("base64")`). -/
def base64Char (i : Nat) : Char :=
  "ABCDEFGHIJKLMNOPQRSTUVWXYZabcdefghijklmnopqrstuvwxyz0123456789+/".toList.getD i 'A'

/-- Base64 rendering of a byte list, 3 bytes to 4 characters with `=`
padding. -/
def base64EncodeChars : List Nat → List Char
  | [] => []
  | [b0] =>
      [base64Char (b0 / 4 % 64), base64Char (b0 % 4 * 16), '=', '=']
  | [b0, b1] =>
      [base64Char (b0 / 4 % 64), base64Char (b0 % 4 * 16 + b1 / 16 % 16),
       base64Char (b1 % 16 * 4), '=']
  | b0 :: b1 :: b2 :: rest =>
      base64Char (b0 / 4 % 64) :: base64Char (b0 % 4 * 16 + b1 / 16 % 16) ::
      base64Char (b1 % 16 * 4 + b2 / 64 % 4) :: base64Char (b2 % 64) ::
      base64EncodeChars rest

/-- The character string actually stored for each envelope shape:
`JSON.stringify({_v:1, clear: plain})` for the clear form, base64 for
the encrypted form. -/
def renderChars (sc : SerCipher V K) : Envelope V → List Char
  | .clear v => '\x7b' :: "\"_v\":1,\"clear\":".toList ++ sc.stringifyV v ++ ['\x7d']
  | .blob bs => base64EncodeChars bs

/-- A concrete `SerCipher` instance used by witnesses: byte-identity
serialization and an identity cipher (which satisfies the inverse
hypotheses of the round-trip theorems). -/
def idSerCipher : SerCipher Nat Unit :=
  { serialize := fun n => [n],
    deserialize := fun bs => match bs with | [n] => some n | _ => none,
    stringifyV := fun n => (toString n).toList,
    enc := fun _ _ m => m,
    dec := fun _ _ m => some m }

end Encryption

/-! ## Variant selector (src/variants/selector.ts)

JS numbers (weights, `Math.random()` draws) are modelled over a generic
linear ordered field with a floor, instantiated at `ℚ` for concrete
evaluation and at `ℝ` inside the vector cache. `Math.random()` is
modelled as an explicit `rand` argument, and the optional
`roundRobinIndexProvider` as an optional `counter` argument. -/

namespace Selector

/-- Round `p` to a multiple of the granularity `g` (a power of two):
round to nearest, ties to the even multiple. -/
def roundEven (p g : Nat) : Nat :=
  let q := p / g
  let r := p % g
  if 2 * r < g then q * g
  else if g < 2 * r then (q + 1) * g
  else if q % 2 = 0 then q * g else (q + 1) * g

/-- Conversion of an exact non-negative integer below `2^56` to an
IEEE-754 double (53-bit significand, round to nearest, ties to even):
exact below `2^53`, otherwise rounded to the granularity of its binade.
The hash loop's products stay below `2^56`: the `ToInt32`-converted
accumulator has magnitude at most `2^31` and the FNV prime is below
`2^25`. -/
def toDouble (p : Nat) : Nat :=
  if p < 2 ^ 53 then p
  else if p < 2 ^ 54 then roundEven p 2
  else if p < 2 ^ 55 then roundEven p 4
  else roundEven p 8

/-- One step of `hashToInt`'s loop: `h ^= charCode` (a JS bitwise
operator, so `h` is reinterpreted as a signed 32-bit integer), then
`h = (h * 0x01000193) >>> 0`, where the multiplication is IEEE-double
arithmetic — for most accumulator values the exact product exceeds
`2^53` and is rounded — and `>>> 0` reduces the (integral) double
modulo `2^32`. -/
def hashStep (h c : Nat) : Nat :=
  let u := h ^^^ c
  let s : Int := if u < 2 ^ 31 then (u : Int) else (u : Int) - 2 ^ 32
  let p : Int := s * 16777619
  let rounded : Int :=
    if 0 ≤ p then (toDouble p.toNat : Int) else -(toDouble (-p).toNat : Int)
  (rounded % 2 ^ 32).toNat

/-- `hashToInt`: the source's string hash over the UTF-16 code units,
starting from `0x811c9dc5` — FNV-1a 32-bit except that each
multiplication goes through double-precision rounding.  For example
seed "a" hashes to `0xE40C292C`, the exact FNV-1a value, but seed "ba"
hashes to `0x3D2BA85F` where exact FNV-1a gives `0x3C2BA6CC`. -/
def hashToInt (s : List Nat) : Nat := s.foldl hashStep 2166136261

/-- Modelled from the claim's words (the spec side of a refinement
comparison, not from the source): the exact FNV-1a 32-bit hash of the
string's code units, with true `mod 2^32` multiplication. -/
def fnv1a32 (s : List Nat) : Nat :=
  s.foldl (fun h c => (h ^^^ c) * 16777619 % 4294967296) 2166136261

/-- JS array indexing `variants[idx]` at a (possibly negative or
out-of-range) integer index: `undefined` is `none`. -/
def jsIndex (l : List α) (i : Int) : Option α :=
  if 0 ≤ i then l.get? i.toNat else none

variable {K : Type} [LinearOrderedField K] [FloorRing K]

/-- The `weighted` branch's subtract-and-test loop:
`r -= max(0, w[i]); if (r <= 0) return i`, with the post-loop fallback
index passed in (`n - 1` at the call site). -/
def weightedLoop (ws : List K) (i : Nat) (r : K) (fallback : Nat) : Nat :=
  match ws with
  | [] => fallback
  | w :: rest =>
    if r - max 0 w ≤ 0 then i else weightedLoop rest (i + 1) (r - max 0 w) fallback

/-- `selectVariant`.  `strategy = none` models an absent strategy
(`input.strategy ?? "random"`), `seed = none` an absent seed
(`String(input.seed ?? "")`, strings modelled as code-unit lists),
`counter = none` an absent `roundRobinIndexProvider`.  `Math.abs` on the
already-unsigned hash is the identity and is dropped.  JS `%` on a
possibly negative left operand is `Int.tmod`. -/
def selectVariant (strategy : Option String) (variants : List α)
    (weights : Option (List K)) (seed : Option (List Nat)) (rand : K)
    (counter : Option Int) : Option (Option α × Int) :=
  if variants.length = 0 then none
  else
    let n := variants.length
    let strat := strategy.getD "random"
    if strat = "random" then
      let idx := Int.floor (rand * n)
      some (jsIndex variants idx, idx)
    else if strat = "deterministic" then
      let seedStr := seed.getD []
      let idx : Int := (hashToInt seedStr % n : Nat)
      some (jsIndex variants idx, idx)
    else if strat = "round-robin" then
      let i := counter.getD 0
      let idx := Int.tmod i (n : Int)
      some (jsIndex variants idx, idx)
    else if strat = "weighted" then
      let ws := match weights with
        | some ws => if ws.length = n then ws else List.replicate n (1 : K)
        | none => List.replicate n (1 : K)
      let total := (ws.map (fun w => max 0 w)).sum
      if total ≤ 0 then
        let idx := Int.floor (rand * n)
        some (jsIndex variants idx, idx)
      else
        let idx := weightedLoop ws 0 (rand * total) (n - 1)
        some (jsIndex variants (idx : Int), (idx : Int))
    else
      let idx := Int.floor (rand * n)
      some (jsIndex variants idx, idx)

/-- Modelled from the claim's words (the spec side of a refinement
comparison, not from the source): the first candidate whose cumulative
effective weight exceeds the draw. -/
def specPick (eff : List K) (i : Nat) (draw : K) : Nat :=
  match eff with
  | [] => i
  | w :: rest => if draw < w then i else specPick rest (i + 1) (draw - w)

/-- Modelled from the claim's words (the spec side of a refinement
comparison, not from the source): weighted selection in which each
missing or non-positive weight is replaced by a default weight of 1 for
that candidate, with a uniform fallback when all supplied weights sum
to ≤ 0; returns the selected index. -/
def specWeightedIndex (n : Nat) (weights : Option (List K)) (rand : K) : Option Nat :=
  if n = 0 then none
  else
    let supplied := weights.getD (List.replicate n (1 : K))
    if supplied.sum ≤ 0 then some (Int.toNat (Int.floor (rand * n)))
    else
      let eff := (List.range n).map (fun i =>
        match weights.bind (fun ws => ws.get? i) with
        | some w => if w ≤ 0 then (1 : K) else w
        | none => (1 : K))
      some (specPick eff 0 (rand * eff.sum))

end Selector

/-! ## In-memory vector cache (src/cache/vector-memory.ts) -/

namespace VectorMemory

/-- The accumulated `dotProduct` (and, applied to a vector with itself,
the squared-norm accumulators `normA`/`normB`) of
`cosineSimilarity`'s loop. -/
def dotList (a b : List ℝ) : ℝ := (List.zipWith (fun x y => x * y) a b).sum

/-- `cosineSimilarity`: throws on a dimension mismatch, returns 0 when
either norm is 0, else `dot / (normA * normB)`. -/
noncomputable def cosineSimilarity (vecA vecB : List ℝ) : Except String ℝ :=
  if vecA.length ≠ vecB.length then .error "Vector dimensions must match"
  else
    let dotProduct := dotList vecA vecB
    let normA := Real.sqrt (dotList vecA vecA)
    let normB := Real.sqrt (dotList vecB vecB)
    if normA = 0 ∨ normB = 0 then .ok 0
    else .ok (dotProduct / (normA * normB))

/-- `LLMResponse` (the fields the claims need). -/
structure LLMResponse where
  id : String
  text : String
deriving DecidableEq, Repr

instance : Inhabited LLMResponse := ⟨⟨"", ""⟩⟩

/-- `CachedLLMEntry`: the stored query (as code units, used as a seed),
its embedding vector, the response variants and the per-entry variant
selection settings. -/
structure CachedLLMEntry where
  query : List Nat
  vector : List ℝ
  responses : List LLMResponse
  variant_strategy : Option String
  weights : Option (List ℝ)
  seed : Option (List Nat)

/-- JS `entry.seed || query`: an absent or empty-string seed is falsy
and is replaced by the query string. -/
def jsOrStr (s : Option (List Nat)) (q : List Nat) : List Nat :=
  match s with
  | some s => if s = [] then q else s
  | none => q

/-- JS `entry.variant_strategy || "random"`. -/
def jsOrStrategy (s : Option String) : String :=
  match s with
  | some s => if s = "" then "random" else s
  | none => "random"

/-- `selectResponse`: a single stored response is returned directly;
otherwise the variant selector runs with the entry's own settings, the
search query standing in for an absent seed, and
`result?.variant || entry.responses[0]` guarding the selector's output.
No `roundRobinIndexProvider` is passed. -/
noncomputable def selectResponse (e : CachedLLMEntry) (query : List Nat) (rand : ℝ) :
    LLMResponse :=
  if e.responses.length = 1 then e.responses.getD 0 default
  else
    match Selector.selectVariant (K := ℝ) (some (jsOrStrategy e.variant_strategy))
        e.responses e.weights (some (jsOrStr e.seed query)) rand none with
    | some (some v, _) => v
    | some (none, _) => e.responses.getD 0 default
    | none => e.responses.getD 0 default

/-- One element of `SemanticSearchResult.matches`. -/
structure Match where
  entry : CachedLLMEntry
  similarity_score : ℝ
  selected_response : LLMResponse

/-- The accumulation loop of `searchSimilar`: per stored entry, compute
the cosine similarity (propagating the dimension-mismatch throw), keep
entries with `similarity >= threshold` and attach a selected response.
The stream `rands` supplies one `Math.random()` draw per entry position. -/
noncomputable def collectMatches (qv : List ℝ) (threshold : ℝ) (query : List Nat)
    (rands : Nat → ℝ) : List CachedLLMEntry → Nat → Except String (List Match)
  | [], _ => .ok []
  | e :: rest, i =>
    match cosineSimilarity qv e.vector with
    | .error msg => .error msg
    | .ok sim =>
      if threshold ≤ sim then
        match collectMatches qv threshold query rands rest (i + 1) with
        | .error msg => .error msg
        | .ok tail =>
            .ok ({ entry := e, similarity_score := sim,
                   selected_response := selectResponse e query (rands i) } :: tail)
      else collectMatches qv threshold query rands rest (i + 1)

/-- Descending insertion by similarity score, modelling the comparison
sort `results.sort((a, b) => b.similarity_score - a.similarity_score)`. -/
noncomputable def insertDesc (m : Match) : List Match → List Match
  | [] => [m]
  | x :: xs =>
    if x.similarity_score ≤ m.similarity_score then m :: x :: xs
    else x :: insertDesc m xs

/-- Descending sort by similarity score. -/
noncomputable def sortDesc : List Match → List Match
  | [] => []
  | x :: xs => insertDesc x (sortDesc xs)

/-- The entries `searchSimilar`'s loop keeps: those whose cosine
similarity against the query embedding computes and is `>= threshold`
(used to state the loop's specification). -/
noncomputable def keptEntries (qv : List ℝ) (threshold : ℝ)
    (entries : List CachedLLMEntry) : List CachedLLMEntry :=
  entries.filter (fun e =>
    match cosineSimilarity qv e.vector with
    | .ok s => decide (threshold ≤ s)
    | .error _ => false)

/-- The similarity score an entry gets in `searchSimilar`'s loop (0 when
the computation errors; only used on entries where it succeeds). -/
noncomputable def simScore (qv : List ℝ) (e : CachedLLMEntry) : ℝ :=
  match cosineSimilarity qv e.vector with
  | .ok s => s
  | .error _ => 0

/-- `searchSimilar` over the stored entries (map iteration order):
collect the matches, sort them by descending similarity, truncate to
`limit` (`results.slice(0, limit)`), and report `total_matches` as the
untruncated count.  It reads the store and returns a fresh result; it
writes nothing. -/
noncomputable def searchSimilar (entries : List CachedLLMEntry) (query : List Nat)
    (qv : List ℝ) (limit : Nat) (threshold : ℝ) (rands : Nat → ℝ) :
    Except String (List Match × Nat) :=
  match collectMatches qv threshold query rands entries 0 with
  | .error msg => .error msg
  | .ok results => .ok ((sortDesc results).take limit, results.length)

end VectorMemory


/-! ## Helper lemmas: circuit breaker unfolding -/

namespace CircuitBreaker

theorem gate_not_opened {st : CBState} {now : Int} (h : st.state ≠ .opened) :
    gate st now = (true, st) := by
  simp [gate, h]

theorem gate_opened_before {st : CBState} {now t : Int} (h : st.state = .opened)
    (ht : st.nextAttemptTime = some t) (hlt : now < t) :
    gate st now = (false, st) := by
  simp [gate, canAttemptReset, h, ht, not_le.mpr hlt]

theorem gate_opened_at {st : CBState} {now t : Int} (h : st.state = .opened)
    (ht : st.nextAttemptTime = some t) (hle : t ≤ now) :
    gate st now = (true, { st with state := .halfOpen, successes := 0 }) := by
  simp [gate, canAttemptReset, h, ht, hle]

theorem execute_of_gate_true {cfg : CBConfig} {st st1 : CBState} {now : Int}
    {opOk : Bool} (hg : gate { st with requests := st.requests + 1 } now = (true, st1)) :
    execute cfg st now opOk =
      if opOk then (.succeeded, onSuccess cfg st1 now)
      else (.failed, onFailure cfg st1 now) := by
  simp only [execute]
  rw [hg]

theorem execute_of_gate_false {cfg : CBConfig} {st st1 : CBState} {now : Int}
    {opOk : Bool} (hg : gate { st with requests := st.requests + 1 } now = (false, st1)) :
    execute cfg st now opOk = (.rejected, st1) := by
  simp only [execute]
  rw [hg]

theorem onFailure_closed_open {cfg : CBConfig} {st : CBState} {now : Int}
    (h : st.state = .closed)
    (hth : cfg.failureThreshold ≤
      ((st.recentFailures ++ [now]).filter
        (fun d => now - cfg.monitoringWindowMs < d)).length) :
    onFailure cfg st now =
      { st with state := .opened, failures := st.failures + 1,
                lastFailureTime := some now,
                nextAttemptTime := some (now + cfg.resetTimeoutMs),
                recentFailures :=
                  (st.recentFailures ++ [now]).filter
                    (fun d => now - cfg.monitoringWindowMs < d) } := by
  simp only [List.filter_append, List.length_append] at hth
  simp [onFailure, h, hth]

theorem onFailure_closed_stay {cfg : CBConfig} {st : CBState} {now : Int}
    (h : st.state = .closed)
    (hlt : ((st.recentFailures ++ [now]).filter
      (fun d => now - cfg.monitoringWindowMs < d)).length < cfg.failureThreshold) :
    onFailure cfg st now =
      { st with failures := st.failures + 1, lastFailureTime := some now,
                recentFailures :=
                  (st.recentFailures ++ [now]).filter
                    (fun d => now - cfg.monitoringWindowMs < d) } := by
  simp only [List.filter_append, List.length_append] at hlt
  simp [onFailure, h, not_le.mpr hlt]

theorem onFailure_halfOpen {cfg : CBConfig} {st : CBState} {now : Int}
    (h : st.state = .halfOpen) :
    onFailure cfg st now =
      { st with state := .opened, failures := st.failures + 1,
                lastFailureTime := some now,
                nextAttemptTime := some (now + cfg.resetTimeoutMs),
                recentFailures :=
                  (st.recentFailures ++ [now]).filter
                    (fun d => now - cfg.monitoringWindowMs < d) } := by
  simp [onFailure, h]

theorem onSuccess_halfOpen_close {cfg : CBConfig} {st : CBState} {now : Int}
    (h : st.state = .halfOpen) (hth : cfg.successThreshold ≤ st.successes + 1) :
    onSuccess cfg st now =
      { st with state := .closed, failures := 0, successes := st.successes + 1,
                lastSuccessTime := some now, recentFailures := [] } := by
  simp [onSuccess, h, hth]

end CircuitBreaker

open CircuitBreaker in
/-- C1: the circuit breaker's `execute` follows the specified state
machine: a fresh breaker starts closed; a failure while closed opens
the circuit with `nextAttemptTime = now + resetTimeoutMs` exactly when
the windowed failure count reaches `failureThreshold` (below it the
breaker stays closed); a call while open strictly before
`nextAttemptTime` is rejected, leaving the state untouched except for
the request counter, without running the operation; a call at or after
`nextAttemptTime` first moves the breaker to half-open with the success
counter reset and then runs the operation; a success that brings the
half-open success count up to `successThreshold` closes the circuit and
clears the recent-failure history; a single half-open failure reopens
the circuit with a fresh `nextAttemptTime`. -/
theorem claim_C1_circuit_breaker_state_machine :
    CBState.initial.state = .closed
    ∧ (∀ (cfg : CBConfig) (st : CBState) (now : Int), st.state = .closed →
        (cfg.failureThreshold ≤ ((execute cfg st now false).2).recentFailures.length →
          ((execute cfg st now false).2).state = .opened ∧
          ((execute cfg st now false).2).nextAttemptTime =
            some (now + cfg.resetTimeoutMs))
        ∧ (((execute cfg st now false).2).recentFailures.length < cfg.failureThreshold →
          ((execute cfg st now false).2).state = .closed))
    ∧ (∀ (cfg : CBConfig) (st : CBState) (now t : Int) (opOk : Bool),
        st.state = .opened → st.nextAttemptTime = some t → now < t →
        execute cfg st now opOk = (.rejected, { st with requests := st.requests + 1 }))
    ∧ (∀ (cfg : CBConfig) (st : CBState) (now t : Int) (opOk : Bool),
        st.state = .opened → st.nextAttemptTime = some t → t ≤ now →
        gate { st with requests := st.requests + 1 } now =
          (true, { st with requests := st.requests + 1, state := .halfOpen,
                           successes := 0 })
        ∧ (execute cfg st now opOk).1 = (if opOk then .succeeded else .failed))
    ∧ (∀ (cfg : CBConfig) (st : CBState) (now : Int), st.state = .halfOpen →
        cfg.successThreshold ≤ st.successes + 1 →
        ((execute cfg st now true).2).state = .closed ∧
        ((execute cfg st now true).2).recentFailures = [] ∧
        ((execute cfg st now true).2).failures = 0)
    ∧ (∀ (cfg : CBConfig) (st : CBState) (now : Int), st.state = .halfOpen →
        ((execute cfg st now false).2).state = .opened ∧
        ((execute cfg st now false).2).nextAttemptTime =
          some (now + cfg.resetTimeoutMs)) := by
  refine ⟨rfl, ?_, ?_, ?_, ?_, ?_⟩
  · intro cfg st now hclosed
    have hg : gate { st with requests := st.requests + 1 } now =
        (true, { st with requests := st.requests + 1 }) :=
      gate_not_opened (by simp [hclosed])
    have he := @execute_of_gate_true cfg _ _ _ false hg
    simp only [Bool.false_eq_true, if_false] at he
    by_cases hth : cfg.failureThreshold ≤
        ((st.recentFailures ++ [now]).filter
          (fun d => now - cfg.monitoringWindowMs < d)).length
    all_goals simp only [List.filter_append, List.length_append] at hth
    · have ho := @onFailure_closed_open cfg { st with requests := st.requests + 1 }
        now (by simp [hclosed]) (by simpa using hth)
      rw [he, ho]
      constructor
      · intro _; exact ⟨rfl, rfl⟩
      · intro hlt; exfalso; simp at hlt; omega
    · have ho := @onFailure_closed_stay cfg { st with requests := st.requests + 1 }
        now (by simp [hclosed]) (by simpa using not_le.mp hth)
      rw [he, ho]
      constructor
      · intro habs; exfalso; simp at habs; omega
      · intro _; exact hclosed
  · intro cfg st now t opOk hopen hnext hlt
    exact execute_of_gate_false
      (gate_opened_before (by simp [hopen]) (by simp [hnext]) hlt)
  · intro cfg st now t opOk hopen hnext hle
    have hg := @gate_opened_at { st with requests := st.requests + 1 } now t
      (by simp [hopen]) (by simp [hnext]) hle
    refine ⟨hg, ?_⟩
    rw [@execute_of_gate_true cfg _ _ _ opOk hg]
    cases opOk <;> simp
  · intro cfg st now hhalf hth
    have hg : gate { st with requests := st.requests + 1 } now =
        (true, { st with requests := st.requests + 1 }) :=
      gate_not_opened (by simp [hhalf])
    have he := @execute_of_gate_true cfg _ _ _ true hg
    simp only [if_pos] at he
    have hs := @onSuccess_halfOpen_close cfg { st with requests := st.requests + 1 }
      now (by simp [hhalf]) (by simpa using hth)
    rw [he, hs]
    exact ⟨rfl, rfl, rfl⟩
  · intro cfg st now hhalf
    have hg : gate { st with requests := st.requests + 1 } now =
        (true, { st with requests := st.requests + 1 }) :=
      gate_not_opened (by simp [hhalf])
    have he := @execute_of_gate_true cfg _ _ _ false hg
    simp only [Bool.false_eq_true, if_false] at he
    have ho := @onFailure_halfOpen cfg { st with requests := st.requests + 1 }
      now (by simp [hhalf])
    rw [he, ho]
    exact ⟨rfl, rfl⟩

open CircuitBreaker in
/-- Witness for C1: a breaker that is open until time 100 rejects a call
at time 5 without running the operation. -/
theorem claim_C1_witness :
    execute ⟨1, 100, 1000, 1, 30⟩
      { state := .opened, failures := 1, successes := 0, requests := 1,
        lastFailureTime := some 0, lastSuccessTime := none,
        nextAttemptTime := some 100, recentFailures := [0] } 5 true =
    (.rejected,
      { state := .opened, failures := 1, successes := 0, requests := 2,
        lastFailureTime := some 0, lastSuccessTime := none,
        nextAttemptTime := some 100, recentFailures := [0] }) := by
  exact claim_C1_circuit_breaker_state_machine.2.2.1 ⟨1, 100, 1000, 1, 30⟩
    { state := .opened, failures := 1, successes := 0, requests := 1,
      lastFailureTime := some 0, lastSuccessTime := none,
      nextAttemptTime := some 100, recentFailures := [0] } 5 100 true rfl rfl
    (by norm_num)

/-! ## Helper lemmas: key-value stores -/

namespace KV

theorem lookup_erase (st : Store V) (k : String) : (erase st k).lookup k = none := by
  induction st with
  | nil => rfl
  | cons p rest ih =>
    simp only [erase, List.filter_cons]
    by_cases h : p.1 = k
    · rw [if_neg (by simp [h])]
      exact ih
    · rw [if_pos (by simp [h])]
      simp only [List.lookup]
      have hb : (k == p.1) = false := by simp [Ne.symm h]
      rw [hb]
      exact ih

theorem lookup_set (st : Store V) (now : Int) (k : String) (v : V) (ttl : Option Int) :
    (set st now k v ttl).lookup k =
      some { value := v, expiresAt := ttl.map (fun t => now + t * 1000) } := by
  simp [set, List.lookup]

end KV

open KV in
/-- C2 (amended): after `set(k, v, t)` with `t > 0`, a `get(k)` strictly
before the expiry instant `now + t*1000` returns `v` on both backends;
at or after the expiry instant the in-memory backend returns `null` and
deletes the entry, while the embedded-file (sqlite) backend still
returns `v` at exactly the expiry instant and returns `null` (deleting
the entry) only strictly after it.  In general, a `get` that returns a
value never returns a strictly expired entry: the in-memory backend
guarantees `now < expiresAt`, the sqlite backend only `now ≤ expiresAt`. -/
theorem claim_C2_ttl_expiry :
    (∀ (V : Type) (st : Store V) (now now2 : Int) (k : String) (v : V) (t : Int),
      0 < t →
      (now2 < now + t * 1000 →
        (memGet (set st now k v (some t)) now2 k).1 = some v)
      ∧ (now + t * 1000 ≤ now2 →
        (memGet (set st now k v (some t)) now2 k).1 = none ∧
        ((memGet (set st now k v (some t)) now2 k).2).lookup k = none)
      ∧ (now2 ≤ now + t * 1000 →
        (sqliteGet (set st now k v (some t)) now2 k).1 = some v)
      ∧ (now + t * 1000 < now2 →
        (sqliteGet (set st now k v (some t)) now2 k).1 = none ∧
        ((sqliteGet (set st now k v (some t)) now2 k).2).lookup k = none))
    ∧ (∀ (V : Type) (st : Store V) (now : Int) (k : String) (v : V),
      (memGet st now k).1 = some v →
      ∃ e, st.lookup k = some e ∧ e.value = v ∧
        (e.expiresAt = none ∨ ∃ x, e.expiresAt = some x ∧ now < x))
    ∧ (∀ (V : Type) (st : Store V) (now : Int) (k : String) (v : V),
      (sqliteGet st now k).1 = some v →
      ∃ e, st.lookup k = some e ∧ e.value = v ∧
        (e.expiresAt = none ∨ ∃ x, e.expiresAt = some x ∧ now ≤ x)) := by
  refine ⟨?_, ?_, ?_⟩
  · intro V st now now2 k v t _
    have hl := lookup_set st now k v (some t)
    refine ⟨?_, ?_, ?_, ?_⟩
    · intro hb
      simp [memGet, hl, not_le.mpr hb]
    · intro hb
      constructor
      · simp [memGet, hl, hb]
      · simp [memGet, hl, hb, lookup_erase]
    · intro hb
      simp [sqliteGet, hl, not_lt.mpr hb]
    · intro hb
      constructor
      · simp [sqliteGet, hl, hb]
      · simp [sqliteGet, hl, hb, lookup_erase]
  · intro V st now k v hget
    cases hl : st.lookup k with
    | none => simp [memGet, hl] at hget
    | some e =>
      cases hx : e.expiresAt with
      | none =>
        refine ⟨e, rfl, ?_, Or.inl hx⟩
        simpa [memGet, hl, hx] using hget
      | some x =>
        by_cases hle : x ≤ now
        · simp [memGet, hl, hx, hle] at hget
        · refine ⟨e, rfl, ?_, Or.inr ⟨x, hx, not_le.mp hle⟩⟩
          simpa [memGet, hl, hx, hle] using hget
  · intro V st now k v hget
    cases hl : st.lookup k with
    | none => simp [sqliteGet, hl] at hget
    | some e =>
      cases hx : e.expiresAt with
      | none =>
        refine ⟨e, rfl, ?_, Or.inl hx⟩
        simpa [sqliteGet, hl, hx] using hget
      | some x =>
        by_cases hlt : x < now
        · simp [sqliteGet, hl, hx, hlt] at hget
        · refine ⟨e, rfl, ?_, Or.inr ⟨x, hx, not_lt.mp hlt⟩⟩
          simpa [sqliteGet, hl, hx, hlt] using hget

/-- Counterexample for C2 as stated: on the embedded-file (sqlite)
backend, a `get` performed exactly at the expiry instant
(`set` at time 0 with TTL 1 s, `get` at time 1000 ms) still returns the
value instead of the `null` the claim requires of every backend. -/
theorem claim_C2_counterexample :
    (KV.sqliteGet (KV.set ([] : KV.Store Nat) 0 "k" 42 (some 1)) 1000 "k").1 =
      some 42 := by
  decide

/-- Witness for C2's amended theorem at concrete inputs: set at time 0
with TTL 1 s, then read before / at / after expiry on both backends. -/
theorem claim_C2_witness :
    (KV.memGet (KV.set ([] : KV.Store Nat) 0 "k" 42 (some 1)) 500 "k").1 = some 42
    ∧ (KV.memGet (KV.set ([] : KV.Store Nat) 0 "k" 42 (some 1)) 1000 "k").1 = none
    ∧ (KV.sqliteGet (KV.set ([] : KV.Store Nat) 0 "k" 42 (some 1)) 500 "k").1 = some 42
    ∧ (KV.sqliteGet (KV.set ([] : KV.Store Nat) 0 "k" 42 (some 1)) 1001 "k").1 = none := by
  refine ⟨?_, ?_, ?_, ?_⟩
  · exact (claim_C2_ttl_expiry.1 Nat [] 0 500 "k" 42 1 (by norm_num)).1 (by norm_num)
  · exact ((claim_C2_ttl_expiry.1 Nat [] 0 1000 "k" 42 1 (by norm_num)).2.1
      (by norm_num)).1
  · exact (claim_C2_ttl_expiry.1 Nat [] 0 500 "k" 42 1 (by norm_num)).2.2.1
      (by norm_num)
  · exact ((claim_C2_ttl_expiry.1 Nat [] 0 1001 "k" 42 1 (by norm_num)).2.2.2
      (by norm_num)).1

/-! ## Helper lemmas: encryption envelope -/

namespace Encryption

theorem getD_ne_brace : ∀ (l : List Char) (i : Nat) (d : Char),
    (∀ x ∈ l, x ≠ '\x7b') → d ≠ '\x7b' → l.getD i d ≠ '\x7b'
  | [], i, d, _, hd => by simpa [List.getD_nil] using hd
  | a :: l, 0, d, hl, _ => by simpa [List.getD_cons_zero] using hl a (by simp)
  | a :: l, i + 1, d, hl, hd => by
      simpa [List.getD_cons_succ] using
        getD_ne_brace l i d (fun x hx => hl x (by simp [hx])) hd

theorem base64Char_ne_brace (i : Nat) : base64Char i ≠ '\x7b' := by
  unfold base64Char
  exact getD_ne_brace _ i 'A' (by decide) (by decide)

theorem base64EncodeChars_ne_brace (bs : List Nat) :
    ∀ ch ∈ base64EncodeChars bs, ch ≠ '\x7b' := by
  induction bs using base64EncodeChars.induct with
  | case1 => intro ch hch; simp [base64EncodeChars] at hch
  | case2 b0 =>
    intro ch hch
    simp [base64EncodeChars] at hch
    rcases hch with h | h | h
    · exact h ▸ base64Char_ne_brace _
    · exact h ▸ base64Char_ne_brace _
    · exact h ▸ (by decide)
  | case3 b0 b1 =>
    intro ch hch
    simp [base64EncodeChars] at hch
    rcases hch with h | h | h | h
    · exact h ▸ base64Char_ne_brace _
    · exact h ▸ base64Char_ne_brace _
    · exact h ▸ base64Char_ne_brace _
    · exact h ▸ (by decide)
  | case4 b0 b1 b2 rest ih =>
    intro ch hch
    simp only [base64EncodeChars, List.mem_cons] at hch
    rcases hch with h | h | h | h | h
    · exact h ▸ base64Char_ne_brace _
    · exact h ▸ base64Char_ne_brace _
    · exact h ▸ base64Char_ne_brace _
    · exact h ▸ base64Char_ne_brace _
    · exact ih ch h

end Encryption

open Encryption in
/-- C5: with a key configured, `decryptFromCache` inverts
`encryptForCache` (assuming only that AES-GCM decryption inverts
encryption and JSON parsing inverts serialization, and that the iv has
the 12 bytes the source generates); with no key configured the value
round-trips through the clear-text envelope, readable whether or not a
key is configured later; and the two wire forms are distinguishable:
the encrypted form is base64 and contains no brace character, while the
clear envelope's JSON rendering starts with one. -/
theorem claim_C5_envelope_roundtrip :
    ∀ (V K : Type) (sc : SerCipher V K) (k : K) (iv : List Nat) (v : V),
    (∀ iv2 m, sc.dec k iv2 (sc.enc k iv2 m) = some m) →
    (∀ w, sc.deserialize (sc.serialize w) = some w) →
    iv.length = 12 →
    decryptFromCache sc (some k) (encryptForCache sc (some k) iv v) = .ok (some v)
    ∧ (∀ key2 : Option K,
        decryptFromCache sc key2 (encryptForCache sc none iv v) = .ok (some v))
    ∧ (∀ ch ∈ renderChars sc (encryptForCache sc (some k) iv v), ch ≠ '\x7b')
    ∧ (renderChars sc (encryptForCache sc none iv v)).head? = some '\x7b' := by
  intro V K sc k iv v hdec hser hiv
  refine ⟨?_, ?_, ?_, rfl⟩
  · simp only [encryptForCache, decryptFromCache]
    rw [← hiv, List.take_left, List.drop_left, hdec]
    simp [hser]
  · intro key2
    cases key2 <;> rfl
  · intro ch hch
    exact base64EncodeChars_ne_brace _ ch hch

open Encryption in
/-- Witness for C5 at a concrete serializer/cipher (identity cipher,
singleton-byte serialization), key `()`, a 12-byte iv and value 5. -/
theorem claim_C5_witness :
    decryptFromCache idSerCipher (some ())
      (encryptForCache idSerCipher (some ()) (List.replicate 12 0) 5) = .ok (some 5) := by
  exact (claim_C5_envelope_roundtrip Nat Unit idSerCipher () (List.replicate 12 0) 5
    (fun _ _ => rfl) (fun _ => rfl) (by decide)).1

open Encryption in
/-- C6 (amended): when a key is configured, the read path never turns a
payload into a `null` miss — every payload either yields a value or
surfaces a typed error (`decryptFailed` / `parseFailed`), both through
`decryptFromCache` and through `SecureCacheWrapper.get`.  When no key is
configured, however, any payload that is not a clear-text envelope is
reported as `null`, i.e. as a cache miss. -/
theorem claim_C6_crypto_errors :
    ∀ (V K : Type) (sc : SerCipher V K) (k : K),
    (∀ c : Envelope V, decryptFromCache sc (some k) c ≠ .ok none)
    ∧ (∀ c : Envelope V, secureGet sc (some k) (some c) ≠ .ok none)
    ∧ (∀ bs : List Nat, decryptFromCache sc none (.blob bs) = .ok none) := by
  intro V K sc k
  have hmain : ∀ c : Envelope V, decryptFromCache sc (some k) c ≠ .ok none := by
    intro c
    cases c with
    | clear v => simp [decryptFromCache]
    | blob bs =>
      simp only [decryptFromCache]
      rcases h1 : sc.dec k (bs.take 12) (bs.drop 12) with _ | plain
      · simp
      · rcases h2 : sc.deserialize plain with _ | v
        · simp [h2]
        · simp [h2]
  exact ⟨hmain, fun c => hmain c, fun bs => rfl⟩

/-- Counterexample for C6 as stated: with no key configured, a stored
payload that is not a clear-text envelope (here the byte blob `[0]`) is
returned as a `null` cache miss by `decryptFromCache`, not surfaced as a
typed error. -/
theorem claim_C6_counterexample :
    Encryption.decryptFromCache Encryption.idSerCipher none (.blob [0]) =
      .ok none := rfl

/-! ## Helper lemmas: variant selector -/

namespace Selector

variable {α : Type} {K : Type} [LinearOrderedField K] [FloorRing K]

theorem jsIndex_eq_get (l : List α) (i : Int) (h0 : 0 ≤ i) (h : i.toNat < l.length) :
    jsIndex l i = some (l.get ⟨i.toNat, h⟩) := by
  simp [jsIndex, h0, List.get?_eq_get h]

theorem selectVariant_deterministic (variants : List α) (w : Option (List K))
    (seed : Option (List Nat)) (r : K) (c : Option Int) (h : variants ≠ []) :
    selectVariant (some "deterministic") variants w seed r c =
      some (variants.get? (hashToInt (seed.getD []) % variants.length),
            ((hashToInt (seed.getD []) % variants.length : Nat) : Int)) := by
  have hlen : ¬ variants.length = 0 := by simpa using h
  simp [selectVariant, hlen, jsIndex]
  have hn0 : (variants.length : Int) ≠ 0 := by exact_mod_cast hlen
  have h0 : (0 : Int) ≤ (hashToInt (seed.getD []) : Int) % (variants.length : Int) :=
    Int.emod_nonneg _ hn0
  have ht : ((hashToInt (seed.getD []) : Int) % (variants.length : Int)).toNat =
      hashToInt (seed.getD []) % variants.length := by omega
  rw [if_pos h0, ht]

end Selector

open Selector in
/-- C7 (amended): under strategy `deterministic`, `selectVariant` is a
pure function of the candidate list and the seed alone — two calls with
the same `(candidates, seed)` but arbitrary (different) weights, random
draws and external counters return the same result — and that result is
the candidate at index `hashToInt(seed) % candidates.length`, where
`hashToInt` is the hash the source actually computes: FNV-1a 32-bit
with each multiplication rounded through IEEE-double precision.  The
frozen claim instead names the exact FNV-1a hash, which differs from
the program's hash (and selects a different index) for some seeds, e.g.
"ba" — see the counterexample. -/
theorem claim_C7_deterministic_two_runs :
    ∀ (α : Type) (K : Type) [LinearOrderedField K] [FloorRing K],
    ∀ (variants : List α) (w1 w2 : Option (List K)) (seed : Option (List Nat))
      (r1 r2 : K) (c1 c2 : Option Int),
    variants ≠ [] →
    selectVariant (some "deterministic") variants w1 seed r1 c1 =
      selectVariant (some "deterministic") variants w2 seed r2 c2
    ∧ selectVariant (some "deterministic") variants w1 seed r1 c1 =
        some (variants.get? (hashToInt (seed.getD []) % variants.length),
              ((hashToInt (seed.getD []) % variants.length : Nat) : Int))
    ∧ ∃ v, variants.get? (hashToInt (seed.getD []) % variants.length) = some v := by
  intro α K _ _ variants w1 w2 seed r1 r2 c1 c2 h
  have h1 := selectVariant_deterministic variants w1 seed r1 c1 h
  have h2 := selectVariant_deterministic variants w2 seed r2 c2 h
  have hidx : hashToInt (seed.getD []) % variants.length < variants.length :=
    Nat.mod_lt _ (List.length_pos.mpr h)
  exact ⟨h1.trans h2.symm, h1, variants.get ⟨_, hidx⟩, List.get?_eq_get hidx⟩

open Selector in
/-- Witness for C7 at `K = ℚ`, candidates `["a", "b"]`, absent seed and
two different draws/weights/counters. -/
theorem claim_C7_witness :
    selectVariant (K := ℚ) (some "deterministic") ["a", "b"] none none 0 none =
      selectVariant (K := ℚ) (some "deterministic") ["a", "b"] (some [5, 1]) none
        (1 / 2) (some 7)
    ∧ selectVariant (K := ℚ) (some "deterministic") ["a", "b"] none none 0 none =
        some ((["a", "b"] : List String).get? (hashToInt [] % 2),
              ((hashToInt [] % 2 : Nat) : Int)) := by
  have h := claim_C7_deterministic_two_runs String ℚ ["a", "b"] none (some [5, 1])
    none 0 (1 / 2) none (some 7) (by simp)
  exact ⟨h.1, h.2.1⟩

open Selector in
/-- Counterexample for C7 as stated: for seed "ba" (code units
`[98, 97]`) the source's float-arithmetic hash is `0x3D2BA85F`
(= 1026271327) while the exact FNV-1a 32-bit hash is `0x3C2BA6CC`
(= 1009493708); with two candidates the deterministic selection
therefore picks index 1, whereas the claim's
`FNV-1a-32(seed) % candidates.length` formula gives index 0. -/
theorem claim_C7_counterexample :
    selectVariant (K := ℚ) (some "deterministic") ["a", "b"] none
      (some [98, 97]) 0 none = some (some "b", 1)
    ∧ hashToInt [98, 97] = 1026271327
    ∧ fnv1a32 [98, 97] = 1009493708
    ∧ fnv1a32 [98, 97] % 2 = 0 := by
  refine ⟨by decide, by decide, by decide, by decide⟩

namespace Selector

variable {α : Type} {K : Type} [LinearOrderedField K] [FloorRing K]

theorem floor_rand_bound {n : Nat} (hn : n ≠ 0) {r : K} (h0 : 0 ≤ r) (h1 : r < 1) :
    0 ≤ Int.floor (r * (n : K)) ∧ (Int.floor (r * (n : K))).toNat < n := by
  have hn' : (0 : K) < n := by exact_mod_cast Nat.pos_of_ne_zero hn
  have hge : (0 : K) ≤ r * n := mul_nonneg h0 (le_of_lt hn')
  have hflo : 0 ≤ Int.floor (r * (n : K)) := Int.floor_nonneg.mpr hge
  have hlt : r * (n : K) < n := by
    calc r * (n : K) < 1 * n := mul_lt_mul_of_pos_right h1 hn'
    _ = n := one_mul _
  have hfl : Int.floor (r * (n : K)) < (n : Int) := by
    rw [Int.floor_lt]
    exact_mod_cast hlt
  exact ⟨hflo, by omega⟩

theorem uniform_branch_ok (variants : List α) (hne : variants ≠ []) (rand : K)
    (h0 : 0 ≤ rand) (h1 : rand < 1) :
    ∃ (i : Nat) (hi : i < variants.length),
      (some (jsIndex variants (Int.floor (rand * (variants.length : K))),
             Int.floor (rand * (variants.length : K))) : Option (Option α × Int)) =
        some (some (variants.get ⟨i, hi⟩), (i : Int)) := by
  have hlen : variants.length ≠ 0 := by simpa using hne
  obtain ⟨hf0, hfn⟩ := floor_rand_bound (K := K) hlen h0 h1
  refine ⟨(Int.floor (rand * (variants.length : K))).toNat, hfn, ?_⟩
  rw [jsIndex_eq_get _ _ hf0 hfn, Int.toNat_of_nonneg hf0]

theorem weightedLoop_mem (ws : List K) (i : Nat) (r : K) (fb : Nat) :
    weightedLoop ws i r fb = fb ∨
      (i ≤ weightedLoop ws i r fb ∧ weightedLoop ws i r fb < i + ws.length) := by
  induction ws generalizing i r with
  | nil => exact Or.inl rfl
  | cons w rest ih =>
    rw [weightedLoop]
    split
    · right
      simp
    · rcases ih (i + 1) (r - max 0 w) with h | ⟨h1, h2⟩
      · exact Or.inl h
      · right
        refine ⟨by omega, ?_⟩
        simpa [Nat.add_assoc, Nat.add_comm 1 rest.length] using h2

end Selector

open Selector in
/-- C9 (amended): `selectVariant` returns `none` exactly on an empty
candidate list; for a non-empty list, under every strategy (including
absent and unknown strategy strings, which fall back to `random`), any
weights and any seed, and a random draw in `[0, 1)`, it returns
`some (some variant, index)` with `index ∈ [0, candidates.length)` and
`variant` the candidate at that index — provided the round-robin
external counter, when used, is non-negative.  (As stated, without that
proviso, the claim fails: see the counterexample, where a negative
counter produces index `-1` and an undefined variant.) -/
theorem claim_C9_selector_safety :
    ∀ (α : Type) (K : Type) [LinearOrderedField K] [FloorRing K],
    ∀ (strategy : Option String) (variants : List α) (w : Option (List K))
      (seed : Option (List Nat)) (rand : K) (counter : Option Int),
    (selectVariant strategy variants w seed rand counter = none ↔ variants = [])
    ∧ (variants ≠ [] → 0 ≤ rand → rand < 1 → 0 ≤ counter.getD 0 →
        ∃ (i : Nat) (hi : i < variants.length),
          selectVariant strategy variants w seed rand counter =
            some (some (variants.get ⟨i, hi⟩), (i : Int))) := by
  intro α K _ _ strategy variants w seed rand counter
  constructor
  · constructor
    · intro hnone
      by_contra hne
      have hlen : ¬ variants.length = 0 := by simpa using hne
      rw [selectVariant, if_neg hlen] at hnone
      dsimp only at hnone
      revert hnone
      split_ifs <;> simp
    · intro hemp
      subst hemp
      rfl
  · intro hne h0 h1 hc
    have hlen : ¬ variants.length = 0 := by simpa using hne
    by_cases hr : strategy.getD "random" = "random"
    · rw [selectVariant, if_neg hlen]
      dsimp only
      rw [if_pos hr]
      exact uniform_branch_ok variants hne rand h0 h1
    · by_cases hd : strategy.getD "random" = "deterministic"
      · rw [selectVariant, if_neg hlen]
        dsimp only
        rw [if_neg hr, if_pos hd]
        have hidx : hashToInt (seed.getD []) % variants.length < variants.length :=
          Nat.mod_lt _ (Nat.pos_of_ne_zero hlen)
        refine ⟨hashToInt (seed.getD []) % variants.length, hidx, ?_⟩
        rw [jsIndex_eq_get _ _ (Int.natCast_nonneg _) (by simpa using hidx)]
        simp only [Int.toNat_natCast]
      · by_cases hrr : strategy.getD "random" = "round-robin"
        · rw [selectVariant, if_neg hlen]
          dsimp only
          rw [if_neg hr, if_neg hd, if_pos hrr]
          have hnpos : (0 : Int) < (variants.length : Int) := by
            exact_mod_cast Nat.pos_of_ne_zero hlen
          have ht0 : 0 ≤ Int.tmod (counter.getD 0) (variants.length : Int) :=
            Int.tmod_nonneg _ hc
          have htl : Int.tmod (counter.getD 0) (variants.length : Int) <
              (variants.length : Int) := Int.tmod_lt_of_pos _ hnpos
          refine ⟨(Int.tmod (counter.getD 0) (variants.length : Int)).toNat,
            by omega, ?_⟩
          rw [jsIndex_eq_get _ _ ht0 (by omega)]
          simp [Int.toNat_of_nonneg ht0]
        · by_cases hw : strategy.getD "random" = "weighted"
          · rw [selectVariant, if_neg hlen]
            dsimp only
            rw [if_neg hr, if_neg hd, if_neg hrr, if_pos hw]
            set ws := (match w with
              | some ws => if ws.length = variants.length then ws
                           else List.replicate variants.length (1 : K)
              | none => List.replicate variants.length (1 : K)) with hws
            have hwslen : ws.length = variants.length := by
              rw [hws]
              rcases w with _ | ws0
              · simp
              · by_cases hl : ws0.length = variants.length <;> simp [hl]
            by_cases htot : (ws.map (fun x => max 0 x)).sum ≤ 0
            · rw [if_pos htot]
              exact uniform_branch_ok variants hne rand h0 h1
            · rw [if_neg htot]
              have hmem := weightedLoop_mem ws 0
                (rand * (ws.map (fun x => max 0 x)).sum) (variants.length - 1)
              have hfbn : variants.length - 1 < variants.length :=
                Nat.sub_lt (Nat.pos_of_ne_zero hlen) Nat.one_pos
              have hlt : weightedLoop ws 0 (rand * (ws.map (fun x => max 0 x)).sum)
                  (variants.length - 1) < variants.length := by
                rcases hmem with h | ⟨_, h2⟩
                · omega
                · omega
              refine ⟨weightedLoop ws 0 (rand * (ws.map (fun x => max 0 x)).sum)
                (variants.length - 1), hlt, ?_⟩
              rw [jsIndex_eq_get _ _ (Int.natCast_nonneg _) (by simpa using hlt)]
              simp
          · rw [selectVariant, if_neg hlen]
            dsimp only
            rw [if_neg hr, if_neg hd, if_neg hrr, if_neg hw]
            exact uniform_branch_ok variants hne rand h0 h1

open Selector in
/-- Counterexample for C9 as stated: with strategy `round-robin`, a
(negative) external counter value of `-1` and two candidates, the
selector computes JS `-1 % 2 = -1` and returns index `-1` with an
undefined (`none`) variant — the index is outside `[0, 2)` and the
result is not the candidate at any valid index. -/
theorem claim_C9_counterexample :
    selectVariant (K := ℚ) (some "round-robin") ["a", "b"] none none 0 (some (-1)) =
      some (none, -1) := by
  decide

open Selector in
/-- Witness for C9's amended theorem: concrete evaluations at `K = ℚ`
for an unknown strategy (falling back to `random`) and for round-robin
with a non-negative counter. -/
theorem claim_C9_witness :
    (∃ (i : Nat) (hi : i < (["a", "b"] : List String).length),
      selectVariant (K := ℚ) (some "bogus") ["a", "b"] none none 0 none =
        some (some ((["a", "b"] : List String).get ⟨i, hi⟩), (i : Int)))
    ∧ (∃ (i : Nat) (hi : i < (["a", "b"] : List String).length),
      selectVariant (K := ℚ) (some "round-robin") ["a", "b"] none none 0 (some 3) =
        some (some ((["a", "b"] : List String).get ⟨i, hi⟩), (i : Int))) := by
  constructor
  · exact (claim_C9_selector_safety String ℚ (some "bogus") ["a", "b"] none none 0
      none).2 (by simp) (by norm_num) (by norm_num) (by norm_num)
  · exact (claim_C9_selector_safety String ℚ (some "round-robin") ["a", "b"] none
      none 0 (some 3)).2 (by simp) (by norm_num) (by norm_num) (by norm_num)

namespace Selector

variable {α : Type} {K : Type} [LinearOrderedField K] [FloorRing K]

theorem max_zero_idem (w : K) : max 0 (max 0 w) = max 0 w :=
  max_eq_right (le_max_left 0 w)

theorem map_max_idem (ws : List K) :
    (ws.map (fun w => max 0 w)).map (fun w => max 0 w) = ws.map (fun w => max 0 w) := by
  induction ws with
  | nil => rfl
  | cons w rest ih => simp [max_zero_idem, ih]

theorem weightedLoop_map_max (ws : List K) (i : Nat) (r : K) (fb : Nat) :
    weightedLoop (ws.map (fun w => max 0 w)) i r fb = weightedLoop ws i r fb := by
  induction ws generalizing i r with
  | nil => rfl
  | cons w rest ih =>
    rw [List.map_cons, weightedLoop, weightedLoop, max_zero_idem]
    split <;> simp [ih]

end Selector

namespace Selector

variable {α : Type} {K : Type} [LinearOrderedField K] [FloorRing K]

theorem selectVariant_weighted_eq (variants : List α) (w : Option (List K))
    (seed : Option (List Nat)) (rand : K) (c : Option Int)
    (hlen : ¬ variants.length = 0) :
    selectVariant (some "weighted") variants w seed rand c =
      (let ws := match w with
        | some ws => if ws.length = variants.length then ws
                     else List.replicate variants.length (1 : K)
        | none => List.replicate variants.length (1 : K)
       let total := (ws.map (fun x => max 0 x)).sum
       if total ≤ 0 then
         some (jsIndex variants (Int.floor (rand * (variants.length : K))),
               Int.floor (rand * (variants.length : K)))
       else
         some (jsIndex variants
                 ((weightedLoop ws 0 (rand * total) (variants.length - 1) : Nat) : Int),
               ((weightedLoop ws 0 (rand * total) (variants.length - 1) : Nat) : Int))) := by
  rw [selectVariant, if_neg hlen]
  dsimp only [Option.getD_some]
  rw [if_neg (by decide), if_neg (by decide), if_neg (by decide), if_pos rfl]

theorem selectVariant_random_eq (variants : List α) (rand : K)
    (hlen : ¬ variants.length = 0) :
    selectVariant (some "random") variants (none : Option (List K)) none rand none =
      some (jsIndex variants (Int.floor (rand * (variants.length : K))),
            Int.floor (rand * (variants.length : K))) := by
  rw [selectVariant, if_neg hlen]
  dsimp only [Option.getD_some]
  rw [if_pos rfl]

end Selector

open Selector in
/-- C8 (amended): in the `weighted` branch of `selectVariant`, a missing
weights array, or one whose length differs from the candidate count,
makes every candidate get default weight 1; an individual non-positive
weight is clamped to 0 (not replaced by 1), so clamping the weights to
`max 0 w` beforehand never changes the result; and when the clamped
weights sum to ≤ 0 the selection behaves exactly like the uniform
`random` strategy. -/
theorem claim_C8_weighted_defaults :
    ∀ (α : Type) (K : Type) [LinearOrderedField K] [FloorRing K],
    ∀ (variants : List α) (seed : Option (List Nat)) (rand : K) (c : Option Int),
    (selectVariant (some "weighted") variants (none : Option (List K)) seed rand c =
      selectVariant (some "weighted") variants
        (some (List.replicate variants.length (1 : K))) seed rand c)
    ∧ (∀ ws0 : List K, ws0.length ≠ variants.length →
        selectVariant (some "weighted") variants (some ws0) seed rand c =
          selectVariant (some "weighted") variants
            (some (List.replicate variants.length (1 : K))) seed rand c)
    ∧ (∀ ws0 : List K,
        selectVariant (some "weighted") variants (some ws0) seed rand c =
          selectVariant (some "weighted") variants
            (some (ws0.map (fun w => max 0 w))) seed rand c)
    ∧ (∀ ws0 : List K, ws0.length = variants.length →
        (ws0.map (fun w => max 0 w)).sum ≤ 0 →
        selectVariant (some "weighted") variants (some ws0) seed rand c =
          selectVariant (some "random") variants (none : Option (List K)) none rand
            none) := by
  intro α K _ _ variants seed rand c
  by_cases hlen : variants.length = 0
  · refine ⟨?_, fun ws0 _ => ?_, fun ws0 => ?_, fun ws0 _ _ => ?_⟩ <;>
      rw [selectVariant, if_pos hlen, selectVariant, if_pos hlen]
  · have hrep : (List.replicate variants.length (1 : K)).length = variants.length :=
      List.length_replicate _ _
    refine ⟨?_, ?_, ?_, ?_⟩
    · rw [selectVariant_weighted_eq _ _ _ _ _ hlen,
        selectVariant_weighted_eq _ _ _ _ _ hlen]
      dsimp only
      rw [if_pos hrep]
    · intro ws0 hne
      rw [selectVariant_weighted_eq _ _ _ _ _ hlen,
        selectVariant_weighted_eq _ _ _ _ _ hlen]
      dsimp only
      rw [if_neg hne, if_pos hrep]
    · intro ws0
      rw [selectVariant_weighted_eq _ _ _ _ _ hlen,
        selectVariant_weighted_eq _ _ _ _ _ hlen]
      dsimp only
      by_cases hl : ws0.length = variants.length
      · rw [if_pos hl,
          if_pos (show (ws0.map (fun w => max 0 w)).length = variants.length by
            simpa using hl),
          map_max_idem, weightedLoop_map_max]
      · rw [if_neg hl,
          if_neg (show ¬ (ws0.map (fun w => max 0 w)).length = variants.length by
            simpa using hl)]
    · intro ws0 hl htot
      rw [selectVariant_weighted_eq _ _ _ _ _ hlen,
        selectVariant_random_eq _ _ hlen]
      dsimp only
      rw [if_pos hl, if_pos htot]

open Selector in
/-- Counterexample for C8 as stated: candidates `["a", "b"]` with
weights `[2, -5]` and draw `1/2`.  The claim's per-candidate defaulting
(non-positive weight → 1, or its uniform fallback on a non-positive
supplied sum) selects index 1, but the code clamps `-5` to `0`
(effective weights `[2, 0]`, total `2`) and selects index 0. -/
theorem claim_C8_counterexample :
    selectVariant (K := ℚ) (some "weighted") ["a", "b"] (some [2, -5]) none
      (1 / 2) none = some (some "a", 0)
    ∧ specWeightedIndex (K := ℚ) 2 (some [2, -5]) (1 / 2) = some 1 := by
  constructor
  · rw [selectVariant_weighted_eq _ _ _ _ _ (by decide)]
    have h2 : max (0 : ℚ) 2 = 2 := max_eq_right (by norm_num)
    have h5 : max (0 : ℚ) (-5) = 0 := max_eq_left (by norm_num)
    norm_num [h2, h5, weightedLoop, jsIndex]
  · norm_num [specWeightedIndex, specPick]

open Selector in
/-- Witness for C8's amended theorem: weights `[0, -1]` clamp to total 0,
so the weighted selection behaves exactly like the `random` strategy. -/
theorem claim_C8_witness :
    selectVariant (K := ℚ) (some "weighted") ["a", "b"] (some [0, -1]) none
      (1 / 2) none =
      selectVariant (K := ℚ) (some "random") ["a", "b"] none none (1 / 2) none := by
  exact (claim_C8_weighted_defaults String ℚ ["a", "b"] none (1 / 2) none).2.2.2
    [0, -1] (by decide) (by norm_num)

/-! ## Helper lemmas: cosine similarity -/

namespace VectorMemory

theorem dotList_nil_left (b : List ℝ) : dotList [] b = 0 := rfl

theorem dotList_nil_right (a : List ℝ) : dotList a [] = 0 := by
  cases a <;> rfl

theorem dotList_cons (x y : ℝ) (xs ys : List ℝ) :
    dotList (x :: xs) (y :: ys) = x * y + dotList xs ys := by
  simp [dotList]

theorem dotList_comm (a b : List ℝ) : dotList a b = dotList b a := by
  induction a generalizing b with
  | nil => cases b <;> rfl
  | cons x xs ih =>
    cases b with
    | nil => rfl
    | cons y ys => rw [dotList_cons, dotList_cons, ih, mul_comm]

theorem dotList_self_nonneg (a : List ℝ) : 0 ≤ dotList a a := by
  induction a with
  | nil => exact le_refl 0
  | cons x xs ih =>
    rw [dotList_cons]
    exact add_nonneg (mul_self_nonneg x) ih

theorem dotList_self_pos {v : List ℝ} {x : ℝ} (hmem : x ∈ v) (hx : x ≠ 0) :
    0 < dotList v v := by
  induction v with
  | nil => cases hmem
  | cons y ys ih =>
    rw [dotList_cons]
    rcases List.mem_cons.mp hmem with h | h
    · subst h
      exact add_pos_of_pos_of_nonneg (mul_self_pos.mpr hx) (dotList_self_nonneg ys)
    · exact add_pos_of_nonneg_of_pos (mul_self_nonneg y) (ih h)

theorem dotList_sq_le (a b : List ℝ) :
    (dotList a b) ^ 2 ≤ dotList a a * dotList b b := by
  induction a generalizing b with
  | nil =>
    simp [dotList_nil_left]
  | cons x xs ih =>
    cases b with
    | nil =>
      simp [dotList_nil_right]
    | cons y ys =>
      simp only [dotList_cons]
      have hp := dotList_self_nonneg xs
      have hq := dotList_self_nonneg ys
      have hih := ih ys
      rcases hq.eq_or_lt with h0 | hqpos
      · have hd : dotList xs ys = 0 := by nlinarith [sq_nonneg (dotList xs ys)]
        rw [hd]
        nlinarith [mul_nonneg hp (sq_nonneg y), sq_nonneg (x * y)]
      · nlinarith [sq_nonneg (x * dotList ys ys - y * dotList xs ys),
          mul_nonneg (sub_nonneg.mpr hih) (sq_nonneg y),
          mul_nonneg (sub_nonneg.mpr hih) hq, hqpos]

theorem cosineSimilarity_of_ne_len {a b : List ℝ} (h : a.length ≠ b.length) :
    cosineSimilarity a b = .error "Vector dimensions must match" := by
  rw [cosineSimilarity, if_pos h]

theorem cosineSimilarity_of_zero_norm {a b : List ℝ} (h : a.length = b.length)
    (hz : Real.sqrt (dotList a a) = 0 ∨ Real.sqrt (dotList b b) = 0) :
    cosineSimilarity a b = .ok 0 := by
  rw [cosineSimilarity, if_neg (by simp [h])]
  dsimp only
  rw [if_pos hz]

theorem cosineSimilarity_of_pos_norm {a b : List ℝ} (h : a.length = b.length)
    (hz : ¬ (Real.sqrt (dotList a a) = 0 ∨ Real.sqrt (dotList b b) = 0)) :
    cosineSimilarity a b =
      .ok (dotList a b / (Real.sqrt (dotList a a) * Real.sqrt (dotList b b))) := by
  rw [cosineSimilarity, if_neg (by simp [h])]
  dsimp only
  rw [if_neg hz]

end VectorMemory

open VectorMemory in
/-- C3: `cosineSimilarity` errors exactly on unequal lengths; it is
symmetric; when both norms are nonzero it returns
`dot(a,b) / (norm(a) * norm(b))`; it returns 0 whenever either norm is
zero; every returned similarity lies in `[-1, 1]`; and
`similarity(v, v) = 1` for every vector with a nonzero component
(real-number idealization of JS floats). -/
theorem claim_C3_cosine_similarity :
    (∀ a b : List ℝ, a.length ≠ b.length →
      cosineSimilarity a b = .error "Vector dimensions must match")
    ∧ (∀ a b : List ℝ, cosineSimilarity a b = cosineSimilarity b a)
    ∧ (∀ a b : List ℝ, a.length = b.length →
        Real.sqrt (dotList a a) ≠ 0 → Real.sqrt (dotList b b) ≠ 0 →
        cosineSimilarity a b =
          .ok (dotList a b / (Real.sqrt (dotList a a) * Real.sqrt (dotList b b))))
    ∧ (∀ a b : List ℝ, a.length = b.length →
        Real.sqrt (dotList a a) = 0 ∨ Real.sqrt (dotList b b) = 0 →
        cosineSimilarity a b = .ok 0)
    ∧ (∀ (a b : List ℝ) (s : ℝ), cosineSimilarity a b = .ok s → -1 ≤ s ∧ s ≤ 1)
    ∧ (∀ v : List ℝ, (∃ x ∈ v, x ≠ 0) → cosineSimilarity v v = .ok 1) := by
  refine ⟨?_, ?_, ?_, ?_, ?_, ?_⟩
  · intro a b h
    exact cosineSimilarity_of_ne_len h
  · intro a b
    by_cases hlen : a.length = b.length
    · by_cases hz : Real.sqrt (dotList a a) = 0 ∨ Real.sqrt (dotList b b) = 0
      · rw [cosineSimilarity_of_zero_norm hlen hz,
          cosineSimilarity_of_zero_norm hlen.symm hz.symm]
      · rw [cosineSimilarity_of_pos_norm hlen hz,
          cosineSimilarity_of_pos_norm hlen.symm (fun h => hz h.symm),
          dotList_comm a b, mul_comm (Real.sqrt (dotList a a))]
    · rw [cosineSimilarity_of_ne_len hlen,
        cosineSimilarity_of_ne_len (fun h => hlen h.symm)]
  · intro a b hlen ha hb
    exact cosineSimilarity_of_pos_norm hlen (by simp [ha, hb])
  · intro a b hlen hz
    exact cosineSimilarity_of_zero_norm hlen hz
  · intro a b s h
    by_cases hlen : a.length = b.length
    · by_cases hz : Real.sqrt (dotList a a) = 0 ∨ Real.sqrt (dotList b b) = 0
      · rw [cosineSimilarity_of_zero_norm hlen hz] at h
        have : s = 0 := by simpa using h.symm
        subst this
        norm_num
      · rw [cosineSimilarity_of_pos_norm hlen hz] at h
        push_neg at hz
        have hA : 0 < Real.sqrt (dotList a a) :=
          lt_of_le_of_ne (Real.sqrt_nonneg _) (Ne.symm hz.1)
        have hB : 0 < Real.sqrt (dotList b b) :=
          lt_of_le_of_ne (Real.sqrt_nonneg _) (Ne.symm hz.2)
        have hc : 0 < Real.sqrt (dotList a a) * Real.sqrt (dotList b b) :=
          mul_pos hA hB
        have hs : s = dotList a b /
            (Real.sqrt (dotList a a) * Real.sqrt (dotList b b)) := by
          simpa using h.symm
        subst hs
        have hc2 : (Real.sqrt (dotList a a) * Real.sqrt (dotList b b)) ^ 2 =
            dotList a a * dotList b b := by
          rw [mul_pow, Real.sq_sqrt (dotList_self_nonneg a),
            Real.sq_sqrt (dotList_self_nonneg b)]
        have hsq : (dotList a b) ^ 2 ≤
            (Real.sqrt (dotList a a) * Real.sqrt (dotList b b)) ^ 2 := by
          rw [hc2]
          exact dotList_sq_le a b
        constructor
        · rw [le_div_iff hc]
          nlinarith [hsq, hc]
        · rw [div_le_one hc]
          nlinarith [hsq, hc]
    · rw [cosineSimilarity_of_ne_len hlen] at h
      cases h
  · intro v hex
    obtain ⟨x, hmem, hx⟩ := hex
    have hpos : 0 < dotList v v := dotList_self_pos hmem hx
    have hs : Real.sqrt (dotList v v) ≠ 0 :=
      ne_of_gt (Real.sqrt_pos.mpr hpos)
    rw [cosineSimilarity_of_pos_norm rfl (by simp [hs]),
      Real.mul_self_sqrt (dotList_self_nonneg v), div_self (ne_of_gt hpos)]

open VectorMemory in
/-- Witness for C3: the one-dimensional vector `[1]` has self-similarity
1, and comparing it against the two-dimensional `[0, 0]` errors. -/
theorem claim_C3_witness :
    cosineSimilarity [1] [1] = .ok 1
    ∧ cosineSimilarity [1] [0, 0] = .error "Vector dimensions must match" := by
  constructor
  · exact claim_C3_cosine_similarity.2.2.2.2.2 [1] ⟨1, by simp, one_ne_zero⟩
  · exact claim_C3_cosine_similarity.1 [1] [0, 0] (by decide)

/-! ## Helper lemmas: selectResponse -/

namespace VectorMemory

theorem selectResponse_single (e : CachedLLMEntry) (query : List Nat) (r : ℝ)
    (x : LLMResponse) (hresp : e.responses = [x]) :
    selectResponse e query r = x := by
  rw [selectResponse, if_pos (by rw [hresp]; rfl), hresp]
  rfl

theorem selectResponse_deterministic (e : CachedLLMEntry) (query : List Nat)
    (r : ℝ) (hlen : 2 ≤ e.responses.length) (hseed : e.seed = none)
    (hstrat : e.variant_strategy = some "deterministic") :
    selectResponse e query r =
      e.responses.getD (Selector.hashToInt query % e.responses.length) default := by
  have hne : e.responses ≠ [] := by
    intro h
    rw [h] at hlen
    simp at hlen
  have hidx : Selector.hashToInt query % e.responses.length < e.responses.length :=
    Nat.mod_lt _ (List.length_pos.mpr hne)
  have hsv := Selector.selectVariant_deterministic (K := ℝ) e.responses e.weights
    (some (jsOrStr e.seed query)) r none hne
  rw [selectResponse, if_neg (by omega)]
  rw [hstrat]
  have hjs : jsOrStrategy (some "deterministic") = "deterministic" := by
    rw [jsOrStrategy]
    simp
  rw [hjs, hsv]
  rw [hseed]
  have hjq : jsOrStr none query = query := rfl
  rw [hjq]
  simp only [Option.getD_some]
  rw [List.get?_eq_get hidx]
  simp [List.getD_eq_getElem?_getD, List.getElem?_eq_getElem hidx, List.get_eq_getElem]

end VectorMemory

open VectorMemory in
/-- C10: `selectResponse` returns a sole stored response directly, for
every strategy, weights, seed and random draw, without consulting the
variant selector; and for an entry with two or more responses, no seed
of its own and strategy `deterministic`, the search query string is
substituted as the seed, so the selected response is
`responses[hashToInt(query) % responses.length]` — `hashToInt` being
the hash the source computes on the seed — independently of the random
draw: two searches with the same query pick the same index. -/
theorem claim_C10_select_response :
    (∀ (e : CachedLLMEntry) (query : List Nat) (r : ℝ) (x : LLMResponse),
      e.responses = [x] → selectResponse e query r = x)
    ∧ (∀ (e : CachedLLMEntry) (query : List Nat) (r1 r2 : ℝ),
      2 ≤ e.responses.length → e.seed = none →
      e.variant_strategy = some "deterministic" →
      selectResponse e query r1 = selectResponse e query r2
      ∧ selectResponse e query r1 =
          e.responses.getD (Selector.hashToInt query % e.responses.length) default) := by
  constructor
  · intro e query r x hresp
    exact selectResponse_single e query r x hresp
  · intro e query r1 r2 hlen hseed hstrat
    have h1 := selectResponse_deterministic e query r1 hlen hseed hstrat
    have h2 := selectResponse_deterministic e query r2 hlen hseed hstrat
    exact ⟨h1.trans h2.symm, h1⟩

open VectorMemory in
/-- Witness for C10: a concrete entry with two responses, no seed and
strategy `deterministic`, searched with query `"hi"` (code units
`[104, 105]`) at two different random draws. -/
theorem claim_C10_witness :
    (selectResponse
        { query := [], vector := [1], responses := [⟨"a", "A"⟩, ⟨"b", "B"⟩],
          variant_strategy := some "deterministic", weights := none, seed := none }
        [104, 105] 0 =
      selectResponse
        { query := [], vector := [1], responses := [⟨"a", "A"⟩, ⟨"b", "B"⟩],
          variant_strategy := some "deterministic", weights := none, seed := none }
        [104, 105] (1 / 2))
    ∧ selectResponse
        { query := [], vector := [1], responses := [⟨"a", "A"⟩, ⟨"b", "B"⟩],
          variant_strategy := some "deterministic", weights := none, seed := none }
        [104, 105] 0 =
      ([⟨"a", "A"⟩, ⟨"b", "B"⟩] : List LLMResponse).getD
        (Selector.hashToInt [104, 105] % 2) default := by
  exact claim_C10_select_response.2
    { query := [], vector := [1], responses := [⟨"a", "A"⟩, ⟨"b", "B"⟩],
      variant_strategy := some "deterministic", weights := none, seed := none }
    [104, 105] 0 (1 / 2) (by decide) rfl rfl

/-! ## Helper lemmas: searchSimilar -/

namespace VectorMemory

theorem insertDesc_perm (m : Match) (l : List Match) :
    (insertDesc m l).Perm (m :: l) := by
  induction l with
  | nil => exact List.Perm.refl _
  | cons x xs ih =>
    rw [insertDesc]
    split
    · exact List.Perm.refl _
    · exact (List.Perm.cons x ih).trans (List.Perm.swap m x xs)

theorem sortDesc_perm (l : List Match) : (sortDesc l).Perm l := by
  induction l with
  | nil => exact List.Perm.refl _
  | cons x xs ih =>
    rw [sortDesc]
    exact (insertDesc_perm x (sortDesc xs)).trans (List.Perm.cons x ih)

theorem insertDesc_sorted (m : Match) (l : List Match)
    (h : l.Pairwise (fun a b => b.similarity_score ≤ a.similarity_score)) :
    (insertDesc m l).Pairwise (fun a b => b.similarity_score ≤ a.similarity_score) := by
  induction l with
  | nil => simp [insertDesc]
  | cons x xs ih =>
    rw [insertDesc]
    rcases List.pairwise_cons.mp h with ⟨hx, hxs⟩
    split
    · rename_i hle
      refine List.pairwise_cons.mpr ⟨?_, h⟩
      intro y hy
      rcases List.mem_cons.mp hy with rfl | hy
      · exact hle
      · exact le_trans (hx y hy) hle
    · rename_i hgt
      refine List.pairwise_cons.mpr ⟨?_, ih hxs⟩
      intro y hy
      rcases List.mem_cons.mp ((insertDesc_perm m xs).mem_iff.mp hy) with rfl | hy
      · exact le_of_lt (not_le.mp hgt)
      · exact hx y hy

theorem sortDesc_sorted (l : List Match) :
    (sortDesc l).Pairwise (fun a b => b.similarity_score ≤ a.similarity_score) := by
  induction l with
  | nil => simp [sortDesc]
  | cons x xs ih => exact insertDesc_sorted x (sortDesc xs) ih

theorem cosineSimilarity_ok_of_len {a b : List ℝ} (h : a.length = b.length) :
    ∃ s, cosineSimilarity a b = .ok s := by
  by_cases hz : Real.sqrt (dotList a a) = 0 ∨ Real.sqrt (dotList b b) = 0
  · exact ⟨0, cosineSimilarity_of_zero_norm h hz⟩
  · exact ⟨_, cosineSimilarity_of_pos_norm h hz⟩

theorem simScore_of_ok {qv : List ℝ} {e : CachedLLMEntry} {s : ℝ}
    (h : cosineSimilarity qv e.vector = .ok s) : simScore qv e = s := by
  rw [simScore, h]

theorem collectMatches_error (qv : List ℝ) (threshold : ℝ) (query : List Nat)
    (rands : Nat → ℝ) :
    ∀ (es : List CachedLLMEntry) (i : Nat),
    (∃ e ∈ es, qv.length ≠ e.vector.length) →
    collectMatches qv threshold query rands es i =
      .error "Vector dimensions must match" := by
  intro es
  induction es with
  | nil =>
    intro i h
    simp at h
  | cons e rest ih =>
    intro i h
    by_cases hh : qv.length = e.vector.length
    · have hrest : ∃ x ∈ rest, qv.length ≠ x.vector.length := by
        rcases h with ⟨x, hx, hnex⟩
        rcases List.mem_cons.mp hx with rfl | hx
        · exact absurd hh hnex
        · exact ⟨x, hx, hnex⟩
      obtain ⟨s, hs⟩ := cosineSimilarity_ok_of_len hh
      rw [collectMatches, hs]
      dsimp only
      by_cases hk : threshold ≤ s
      · rw [if_pos hk, ih (i + 1) hrest]
      · rw [if_neg hk]
        exact ih (i + 1) hrest
    · rw [collectMatches, cosineSimilarity_of_ne_len hh]

theorem collectMatches_ok (qv : List ℝ) (threshold : ℝ) (query : List Nat)
    (rands : Nat → ℝ) :
    ∀ (es : List CachedLLMEntry) (i : Nat),
    (∀ e ∈ es, qv.length = e.vector.length) →
    ∃ ms, collectMatches qv threshold query rands es i = .ok ms
      ∧ ms.map (fun m => (m.entry, m.similarity_score)) =
          (keptEntries qv threshold es).map (fun e => (e, simScore qv e))
      ∧ (∀ m ∈ ms, cosineSimilarity qv m.entry.vector = .ok m.similarity_score
          ∧ threshold ≤ m.similarity_score) := by
  intro es
  induction es with
  | nil =>
    intro i _
    exact ⟨[], rfl, by simp [keptEntries], by simp⟩
  | cons e rest ih =>
    intro i h
    have hh : qv.length = e.vector.length := h e (List.mem_cons_self e rest)
    have hrest : ∀ x ∈ rest, qv.length = x.vector.length :=
      fun x hx => h x (List.mem_cons_of_mem e hx)
    obtain ⟨s, hs⟩ := cosineSimilarity_ok_of_len hh
    obtain ⟨ms, hok, hmap, hall⟩ := ih (i + 1) hrest
    by_cases hk : threshold ≤ s
    · refine ⟨{ entry := e, similarity_score := s,
                selected_response := selectResponse e query (rands i) } :: ms,
        ?_, ?_, ?_⟩
      · rw [collectMatches, hs]
        dsimp only
        rw [if_pos hk, hok]
      · simp only [keptEntries] at hmap ⊢
        rw [List.filter_cons, if_pos (by rw [hs]; simp [hk])]
        simp only [List.map_cons, simScore_of_ok hs, hmap]
      · intro m hm
        rcases List.mem_cons.mp hm with rfl | hm
        · exact ⟨hs, hk⟩
        · exact hall m hm
    · refine ⟨ms, ?_, ?_, hall⟩
      · rw [collectMatches, hs]
        dsimp only
        rw [if_neg hk]
        exact hok
      · simp only [keptEntries] at hmap ⊢
        rw [List.filter_cons, if_neg (by rw [hs]; simp [hk])]
        exact hmap

end VectorMemory

open VectorMemory in
/-- C4: `searchSimilar` throws the dimension-mismatch error whenever any
stored embedding's length differs from the query embedding's; otherwise
it succeeds and returns exactly the stored entries whose cosine
similarity to the query is `>= threshold` — as a list sorted in
descending similarity order, truncated to at most `limit` matches, with
each match carrying the untouched stored entry and its exact similarity
score — and reports the untruncated match count.  The search is a pure
function of the store (the embedding returns a result without touching
the entry list), so stored entries are not modified. -/
theorem claim_C4_search_similar :
    ∀ (entries : List CachedLLMEntry) (query : List Nat) (qv : List ℝ)
      (limit : Nat) (threshold : ℝ) (rands : Nat → ℝ),
    ((∃ e ∈ entries, qv.length ≠ e.vector.length) →
      searchSimilar entries query qv limit threshold rands =
        .error "Vector dimensions must match")
    ∧ ((∀ e ∈ entries, qv.length = e.vector.length) →
      ∃ l : List Match,
        searchSimilar entries query qv limit threshold rands =
          .ok (l.take limit, (keptEntries qv threshold entries).length)
        ∧ l.Pairwise (fun a b => b.similarity_score ≤ a.similarity_score)
        ∧ (l.map (fun m => (m.entry, m.similarity_score))).Perm
            ((keptEntries qv threshold entries).map (fun e => (e, simScore qv e)))
        ∧ (∀ m ∈ l, cosineSimilarity qv m.entry.vector = .ok m.similarity_score
            ∧ threshold ≤ m.similarity_score)) := by
  intro entries query qv limit threshold rands
  constructor
  · intro hex
    rw [searchSimilar, collectMatches_error qv threshold query rands entries 0 hex]
  · intro hall
    obtain ⟨ms, hok, hmap, hprop⟩ :=
      collectMatches_ok qv threshold query rands entries 0 hall
    have hlen : ms.length = (keptEntries qv threshold entries).length := by
      have := congrArg List.length hmap
      simpa using this
    refine ⟨sortDesc ms, ?_, sortDesc_sorted ms, ?_, ?_⟩
    · rw [searchSimilar, hok]
      dsimp only
      rw [hlen]
    · exact (List.Perm.map _ (sortDesc_perm ms)).trans (hmap ▸ List.Perm.refl _)
    · intro m hm
      exact hprop m ((sortDesc_perm ms).mem_iff.mp hm)

open VectorMemory in
/-- Witness for C4: a store holding one entry with embedding `[1]`,
searched with query embedding `[1]`, limit 5 and threshold 0. -/
theorem claim_C4_witness :
    ∃ l : List Match,
      searchSimilar
          [{ query := [], vector := [1], responses := [⟨"a", "A"⟩],
             variant_strategy := none, weights := none, seed := none }]
          [] [1] 5 0 (fun _ => 0) =
        .ok (l.take 5,
          (keptEntries [1] 0
            [{ query := [], vector := [1], responses := [⟨"a", "A"⟩],
               variant_strategy := none, weights := none, seed := none }]).length)
      ∧ l.Pairwise (fun a b => b.similarity_score ≤ a.similarity_score)
      ∧ (l.map (fun m => (m.entry, m.similarity_score))).Perm
          ((keptEntries [1] 0
            [{ query := [], vector := [1], responses := [⟨"a", "A"⟩],
               variant_strategy := none, weights := none, seed := none }]).map
            (fun e => (e, simScore [1] e)))
      ∧ (∀ m ∈ l, cosineSimilarity [1] m.entry.vector = .ok m.similarity_score
          ∧ (0 : ℝ) ≤ m.similarity_score) := by
  exact (claim_C4_search_similar
    [{ query := [], vector := [1], responses := [⟨"a", "A"⟩],
       variant_strategy := none, weights := none, seed := none }]
    [] [1] 5 0 (fun _ => 0)).2 (by
      intro e he
      simp only [List.mem_singleton] at he
      subst he
      rfl)
